import Mathlib

/-!
Verification of the PyStatTools library (`Statistics.py`, `HypothesisTesting.py`)
against its natural-language specification.

The Python classes `DataSet` / `DataSetWithStatistics` are embedded shallowly:
observations are rationals, the mutable object state (the list contents, the
`size` attribute set in `DataSet.__init__`, and the two lazily-memoised private
fields `__sum_of_observations` and `__is_num_of_items_even`) is an explicit
record, and every method is a function from states to a result paired with the
state after the call.  Fallible Python operations (true division, list
indexing, `mode`'s `ValueError`) return `Except String`.  Python's `sorted`
(a stable sort of rationals, where stability is unobservable) is modelled by
`List.insertionSort`; `math.sqrt` and scipy's normal cdf/ppf are external
capabilities and are passed in as function parameters, exactly as the spec's
"normal-distribution provider" describes them.
-/

namespace PyStat

/-- Python true division: `a / b` raises `ZeroDivisionError` when `b == 0`. -/
def pyDiv (a b : ℚ) : Except String ℚ :=
  if b = 0 then .error "ZeroDivisionError" else .ok (a / b)

/-- Python list indexing `l[i]`: negative indices count from the end, and an
index out of range raises `IndexError`. -/
def pyGet (l : List ℚ) (i : ℤ) : Except String ℚ :=
  let j : ℤ := if i < 0 then i + l.length else i
  if 0 ≤ j ∧ j < l.length then
    match l.get? j.toNat with
    | some v => .ok v
    | none => .error "IndexError"
  else .error "IndexError"

/-- The state of a `DataSetWithStatistics` object: the list contents, the
`size` attribute (`DataSet.__init__`, line 11 of `Statistics.py`), and the two
memoisation fields `__sum_of_observations` and `__is_num_of_items_even`
(lines 36-37). -/
structure DataSetWithStatistics where
  data : List ℚ
  size : ℕ
  sumCache : Option ℚ
  evenCache : Option Bool
  deriving Repr, DecidableEq

/-- `DataSetWithStatistics.__init__`: `size` is set to `len(data)` and both
memoisation fields start out as `None`. -/
def mkDataSet (data : List ℚ) : DataSetWithStatistics :=
  { data := data, size := data.length, sumCache := none, evenCache := none }

/-- `DataSet.__pow__`: a new data set with each element raised to `power`. -/
def dsPow (s : DataSetWithStatistics) (power : ℕ) : DataSetWithStatistics :=
  mkDataSet (s.data.map (fun value => value ^ power))

/-- `DataSet.__mul__`: the element-wise product of two data sets; `zip`
truncates to the shorter of the two. -/
def dsMul (s other : DataSetWithStatistics) : DataSetWithStatistics :=
  mkDataSet (List.zipWith (fun a b => a * b) s.data other.data)

/-- `sum_of_observations` (lines 39-49): computed by `sum(self)` on first
access and memoised in `__sum_of_observations`. -/
def sum_of_observations (s : DataSetWithStatistics) : ℚ × DataSetWithStatistics :=
  match s.sumCache with
  | some v => (v, s)
  | none => (s.data.sum, { s with sumCache := some s.data.sum })

/-- `is_num_of_items_even` (lines 51-60): `self.size % 2 == 0`, memoised in
`__is_num_of_items_even`. -/
def is_num_of_items_even (s : DataSetWithStatistics) : Bool × DataSetWithStatistics :=
  match s.evenCache with
  | some b => (b, s)
  | none => (decide (s.size % 2 = 0), { s with evenCache := some (decide (s.size % 2 = 0)) })

/-- `arithmetic_mean` (lines 62-75): `sum / (size - 1)` under Bessel's
correction, `sum / size` otherwise.  Python's `/` raises `ZeroDivisionError`
on a zero divisor. -/
def arithmetic_mean (s : DataSetWithStatistics) (bessel_correction : Bool) :
    Except String ℚ × DataSetWithStatistics :=
  match sum_of_observations s with
  | (v, s1) =>
    if bessel_correction then (pyDiv v ((s1.size : ℚ) - 1), s1)
    else (pyDiv v (s1.size : ℚ), s1)

/-- `median` (lines 77-90): `self[self.size // 2]` for an odd number of items,
otherwise the average of the two middle items.  Indexing uses the stored
`size` attribute, so it goes through Python list-indexing semantics. -/
def median (s : DataSetWithStatistics) : Except String ℚ × DataSetWithStatistics :=
  match is_num_of_items_even s with
  | (even, s1) =>
    if even = false then
      (pyGet s1.data ((s1.size / 2 : ℕ) : ℤ), s1)
    else
      let idx2 : ℤ := ((s1.size / 2 : ℕ) : ℤ)
      let idx1 : ℤ := idx2 - 1
      match pyGet s1.data idx1 with
      | .error e => (.error e, s1)
      | .ok a =>
        match pyGet s1.data idx2 with
        | .error e => (.error e, s1)
        | .ok b => (.ok ((a + b) / 2), s1)

/-- Python's `sorted` on a list of numbers (a stable sort; stability is
unobservable on plain values, so insertion sort is a faithful model). -/
def pysorted (l : List ℚ) : List ℚ :=
  List.insertionSort (fun a b => a ≤ b) l

/-- `quantiles` (lines 196-211): sorts a copy, takes `Q1` as the median of
`sorted[:N//2]`, `Q3` as the median of `sorted[N//2:]` for even `N` or
`sorted[N//2+1:]` for odd `N` (parity read through the memoised
`self.is_num_of_items_even()`), and `Q2` as `self.median()` evaluated last,
on the *unsorted* receiver. -/
def quantiles (s : DataSetWithStatistics) :
    Except String (List ℚ) × DataSetWithStatistics :=
  let sorted_data_set := mkDataSet (pysorted s.data)
  let idx_of_mid_value := sorted_data_set.size / 2
  match (median (mkDataSet (sorted_data_set.data.take idx_of_mid_value))).1 with
  | .error e => (.error e, s)
  | .ok first_quartile =>
    match is_num_of_items_even s with
    | (even, s1) =>
      let idx3 := if even then idx_of_mid_value else idx_of_mid_value + 1
      match (median (mkDataSet (sorted_data_set.data.drop idx3))).1 with
      | .error e => (.error e, s1)
      | .ok third_quartile =>
        match median s1 with
        | (.error e, s2) => (.error e, s2)
        | (.ok second_quartile, s2) =>
          (.ok [first_quartile, second_quartile, third_quartile], s2)

/-- `interquartile_range` (lines 213-221): `quantiles[2] - quantiles[0]`. -/
def interquartile_range (s : DataSetWithStatistics) :
    Except String ℚ × DataSetWithStatistics :=
  match quantiles s with
  | (.error e, s1) => (.error e, s1)
  | (.ok q, s1) =>
    match pyGet q 2 with
    | .error e => (.error e, s1)
    | .ok q3 =>
      match pyGet q 0 with
      | .error e => (.error e, s1)
      | .ok q1 => (.ok (q3 - q1), s1)

/-- `diff_between_values_and_mean` (lines 129-141): a fresh data set of
`value - mean` (squared when requested); the mean uses no Bessel correction. -/
def diff_between_values_and_mean (s : DataSetWithStatistics) (squared : Bool) :
    Except String DataSetWithStatistics × DataSetWithStatistics :=
  match arithmetic_mean s false with
  | (.error e, s1) => (.error e, s1)
  | (.ok data_set_mean, s1) =>
    let diff := mkDataSet (s1.data.map (fun value => value - data_set_mean))
    (.ok (mkDataSet (if squared then (dsPow diff 2).data else diff.data)), s1)

/-- `variance` (lines 143-153): the `arithmetic_mean` of the squared
deviations, with the caller's Bessel flag. -/
def variance (s : DataSetWithStatistics) (bessel_correction : Bool) :
    Except String ℚ × DataSetWithStatistics :=
  match diff_between_values_and_mean s true with
  | (.error e, s1) => (.error e, s1)
  | (.ok squared_differences, s1) =>
    ((arithmetic_mean squared_differences bessel_correction).1, s1)

/-- `standard_deviation` (lines 155-163): `sqrt(variance)`, with `math.sqrt`
supplied as the external capability `sqrtF`. -/
def standard_deviation (sqrtF : ℚ → ℚ) (s : DataSetWithStatistics)
    (bessel_correction : Bool) : Except String ℚ × DataSetWithStatistics :=
  match variance s bessel_correction with
  | (.error e, s1) => (.error e, s1)
  | (.ok v, s1) => (.ok (sqrtF v), s1)

/-- `covariance` (lines 165-180): element-wise product of the two deviation
lists (`zip` truncates), then either the raw sum or the Bessel-flagged mean. -/
def covariance (s other : DataSetWithStatistics)
    (bessel_correction raw_covariance : Bool) :
    Except String ℚ × DataSetWithStatistics :=
  match diff_between_values_and_mean s false with
  | (.error e, s1) => (.error e, s1)
  | (.ok set_1_diff, s1) =>
    match (diff_between_values_and_mean other false).1 with
    | .error e => (.error e, s1)
    | .ok set_2_diff =>
      let products_of_sets := dsMul set_1_diff set_2_diff
      if raw_covariance then (.ok products_of_sets.data.sum, s1)
      else ((arithmetic_mean (mkDataSet products_of_sets.data) bessel_correction).1, s1)

/-- `pearson_correlation_coefficient` (lines 182-194). -/
def pearson_correlation_coefficient (sqrtF : ℚ → ℚ)
    (s other : DataSetWithStatistics) :
    Except String ℚ × DataSetWithStatistics :=
  match covariance s other true true with
  | (.error e, s1) => (.error e, s1)
  | (.ok raw_covariance, s1) =>
    match diff_between_values_and_mean s1 true with
    | (.error e, s2) => (.error e, s2)
    | (.ok d1, s2) =>
      match (diff_between_values_and_mean other true).1 with
      | .error e => (.error e, s2)
      | .ok d2 =>
        let product_of_roots := sqrtF d1.data.sum * sqrtF d2.data.sum
        (pyDiv raw_covariance product_of_roots, s2)

/-- The frequency dictionary update `freq_dictionary[value] =
freq_dictionary.get(value, 0) + 1` on an insertion-ordered association
list (Python 3.7+ `dict` preserves insertion order). -/
def bump : List (ℚ × ℕ) → ℚ → List (ℚ × ℕ)
  | [], v => [(v, 1)]
  | (k, f) :: rest, v =>
    if k = v then (k, f + 1) :: rest else (k, f) :: bump rest v

/-- The frequency dictionary built by `mode`'s first loop (lines 99-101). -/
def freqList (l : List ℚ) : List (ℚ × ℕ) :=
  l.foldl bump []

/-- `mode`'s second loop (lines 103-110): running maximum frequency, with the
modes list reset on a strictly larger frequency and appended to on a tie. -/
def modeLoop : List (ℚ × ℕ) → List ℚ → ℕ → List ℚ × ℕ
  | [], modes, maxf => (modes, maxf)
  | (_k, f) :: rest, modes, maxf =>
    if maxf < f then modeLoop rest [_k] f
    else if f = maxf then modeLoop rest (modes ++ [_k]) maxf
    else modeLoop rest modes maxf

/-- The two shapes `mode` can return: `modes_list[0]` or the whole list. -/
inductive ModeResult where
  | single (q : ℚ)
  | multiple (l : List ℚ)
  deriving Repr, DecidableEq

/-- `mode` (lines 92-118): a single value when the maximum frequency exceeds 1
and is attained once, the tied list when attained several times, and
`ValueError('No mode found')` otherwise. -/
def mode (s : DataSetWithStatistics) :
    Except String ModeResult × DataSetWithStatistics :=
  let entries := freqList s.data
  match modeLoop entries [] 0 with
  | (modes_list, max_freq) =>
    if 1 < max_freq ∧ 1 < modes_list.length then (.ok (.multiple modes_list), s)
    else if 1 < max_freq ∧ modes_list.length = 1 then
      (.ok (.single (modes_list.headD 0)), s)
    else (.error "No mode found", s)

/-- Python `list.remove(value)`: delete the first occurrence of `value`. -/
def removeFirst : List ℚ → ℚ → List ℚ
  | [], _ => []
  | x :: xs, v => if x = v then xs else x :: removeFirst xs v

/-- CPython's `reversed(list)` iterator interacting with in-place removal:
the iterator holds an index that starts at the initial length minus one and
decreases by one per step; it yields the element currently at that index and
stops as soon as the index falls outside the current list.  `revIterLoop f n l`
runs the body `if f value: self.remove(value)` with the index at `n - 1`. -/
def revIterLoop (isOut : ℚ → Bool) : ℕ → List ℚ → List ℚ
  | 0, lst => lst
  | i + 1, lst =>
    if h : i < lst.length then
      let value := lst.get ⟨i, h⟩
      if isOut value then revIterLoop isOut i (removeFirst lst value)
      else revIterLoop isOut i lst
    else lst

/-- `remove_outliers_iqr` (lines 223-241): quantiles are computed once, the
limits are `Q1 - step*IQR` and `Q3 + step*IQR`, and the reverse-iteration
loop removes every element strictly outside them, in place.  The `size`
attribute and the memoised fields are left untouched by the removal. -/
def remove_outliers_iqr (s : DataSetWithStatistics) (outlier_step : ℚ) :
    Except String Unit × DataSetWithStatistics :=
  match quantiles s with
  | (.error e, s1) => (.error e, s1)
  | (.ok q, s1) =>
    match pyGet q 0 with
    | .error e => (.error e, s1)
    | .ok first_quantile =>
      match pyGet q 2 with
      | .error e => (.error e, s1)
      | .ok third_quantile =>
        let iqr := third_quantile - first_quantile
        let lower_limit := first_quantile - outlier_step * iqr
        let upper_limit := third_quantile + outlier_step * iqr
        let isOut : ℚ → Bool := fun value =>
          decide (value < lower_limit) || decide (upper_limit < value)
        (.ok (), { s1 with data := revIterLoop isOut s1.data.length s1.data })

/-- The spec's external "normal-distribution provider": the standard normal
cdf `Φ` and its inverse `Φ⁻¹` (scipy's `stats.norm.cdf` / `stats.norm.ppf`). -/
structure NormalDist where
  cdf : ℚ → ℚ
  ppf : ℚ → ℚ

/-- Python's `round(x, 3)` (banker's rounding at the half-way point). -/
def pyRound3 (q : ℚ) : ℚ :=
  let scaled := q * 1000
  let fl : ℤ := ⌊scaled⌋
  let frac := scaled - fl
  if frac < 1 / 2 then (fl : ℚ) / 1000
  else if 1 / 2 < frac then ((fl : ℚ) + 1) / 1000
  else if fl % 2 = 0 then (fl : ℚ) / 1000 else ((fl : ℚ) + 1) / 1000

/-- The values stored in the result record of the z-test. -/
inductive PyVal where
  | num (q : ℚ)
  | bool (b : Bool)
  deriving Repr, DecidableEq

/-- The three direction strings accepted by `one_sample_z_test` (line 18). -/
def validDirections : List String :=
  ["right-tailed", "left-tailed", "two-tailed"]

/-- `DataSetHypothesisTester.one_sample_z_test` (`HypothesisTesting.py`,
lines 10-92): validates the direction, takes the plain sample mean, falls
back to the sample's Bessel-corrected standard deviation when the supplied
population standard deviation is falsy (`None` or `0`), forms
`z = (mean - mu0) / (sigma / sqrt N)`, branches on the direction for the
critical value (rounded to 3 places, used only for reporting) and the
p-value, rejects exactly when `p < significance_level`, and returns the
ordered record of labelled z-value, p-value and rejection flag. -/
def one_sample_z_test (sqrtF : ℚ → ℚ) (nd : NormalDist)
    (s : DataSetWithStatistics) (hypothetical_population_mean : ℚ)
    (population_standard_deviation : Option ℚ) (significance_level : ℚ)
    (direction_of_hypothesis : String) :
    Except String (List (String × PyVal)) × DataSetWithStatistics :=
  if direction_of_hypothesis ∉ validDirections then
    (.error "Invalid alternative hypothesis direction", s)
  else
    match arithmetic_mean s false with
    | (.error e, s1) => (.error e, s1)
    | (.ok sample_mean, s1) =>
      match
        (match population_standard_deviation with
         | none => standard_deviation sqrtF s1 true
         | some x =>
           if x = 0 then standard_deviation sqrtF s1 true else (.ok x, s1)) with
      | (.error e, s2) => (.error e, s2)
      | (.ok sigma, s2) =>
        match pyDiv sigma (sqrtF (s2.size : ℚ)) with
        | .error e => (.error e, s2)
        | .ok denom =>
          match pyDiv (sample_mean - hypothetical_population_mean) denom with
          | .error e => (.error e, s2)
          | .ok test_statistic =>
            let _critical_value : ℚ :=
              if direction_of_hypothesis = "two-tailed" then
                pyRound3 (nd.ppf (1 - significance_level / 2))
              else if direction_of_hypothesis = "right-tailed" then
                pyRound3 (nd.ppf (1 - significance_level))
              else pyRound3 (nd.ppf significance_level)
            let p_value : ℚ :=
              if direction_of_hypothesis = "two-tailed" then
                2 * (1 - nd.cdf |test_statistic|)
              else if direction_of_hypothesis = "right-tailed" then
                1 - nd.cdf test_statistic
              else nd.cdf test_statistic
            let null_hypothesis_rejected := decide (p_value < significance_level)
            (.ok [("z-value", .num test_statistic),
                  ("p-value", .num p_value),
                  ("null hypothesis rejected", .bool null_hypothesis_rejected)], s2)

/-- The positional median formula of `median` as a pure function of a list:
the element at index `N // 2` for odd `N`, the average of the elements at
`N // 2 - 1` and `N // 2` for even `N`.  On a sorted list this is the
median in the usual sense. -/
def medianFormula (l : List ℚ) : ℚ :=
  if l.length % 2 = 1 then l.getD (l.length / 2) 0
  else (l.getD (l.length / 2 - 1) 0 + l.getD (l.length / 2) 0) / 2

/-- The spec's first quartile: the median of the lower half `sorted[:N//2]`. -/
def specQ1 (l : List ℚ) : ℚ :=
  medianFormula ((pysorted l).take (l.length / 2))

/-- The spec's third quartile: the median of the upper half of the sorted
data, starting at `N//2` for even `N` and at `N//2 + 1` for odd `N`. -/
def specQ3 (l : List ℚ) : ℚ :=
  medianFormula
    ((pysorted l).drop (if l.length % 2 = 0 then l.length / 2 else l.length / 2 + 1))

/-- The values of a list in order of first occurrence (`seen` accumulator). -/
def firstOccurAux : List ℚ → List ℚ → List ℚ
  | [], _ => []
  | v :: rest, seen =>
    if v ∈ seen then firstOccurAux rest seen
    else v :: firstOccurAux rest (v :: seen)

/-- The values of a list in order of first occurrence. -/
def firstOccur (l : List ℚ) : List ℚ :=
  firstOccurAux l []

/-- The maximum frequency with which any value occurs in `l`. -/
def specMaxFreq (l : List ℚ) : ℕ :=
  (firstOccur l).foldl (fun a v => max a (l.count v)) 0

/-- All values of `l` tied at the maximum frequency, in order of first
occurrence. -/
def specModes (l : List ℚ) : List ℚ :=
  (firstOccur l).filter (fun v => decide (l.count v = specMaxFreq l))

/-! ### Evaluation lemmas for the basic operations -/

theorem int_toNat_two_or_more (n : ℕ) [Nat.AtLeastTwo n] :
    Int.toNat (OfNat.ofNat n) = OfNat.ofNat n := rfl

/-- Python indexing with an in-range natural index returns the element. -/
theorem pyGet_nat (l : List ℚ) (j : ℕ) (h : j < l.length) :
    pyGet l (j : ℤ) = .ok (l.getD j 0) := by
  have h0 : ¬ ((j : ℤ) < 0) := by omega
  have h1 : (0 : ℤ) ≤ (j : ℤ) := by omega
  have h2 : (j : ℤ) < l.length := by omega
  simp only [pyGet, h0, if_false, Int.toNat_natCast]
  rw [if_pos ⟨h1, h2⟩, List.get?_eq_getElem?, List.getElem?_eq_getElem h,
    List.getD_eq_getElem l 0 h]

theorem mkDataSet_data (l : List ℚ) : (mkDataSet l).data = l := rfl

theorem mkDataSet_size (l : List ℚ) : (mkDataSet l).size = l.length := rfl

/-- `is_num_of_items_even` on a state whose parity cache is absent or
consistent: it returns the parity of `size` and fills the cache. -/
theorem is_num_eval (s : DataSetWithStatistics)
    (hc : s.evenCache = none ∨ s.evenCache = some (decide (s.size % 2 = 0))) :
    is_num_of_items_even s =
      (decide (s.size % 2 = 0), { s with evenCache := some (decide (s.size % 2 = 0)) }) := by
  obtain ⟨d, sz, sc, ec⟩ := s
  rcases hc with h | h <;> simp_all [is_num_of_items_even]

/-- `median` on a consistent nonempty state returns the positional median
formula of the stored list and only fills the parity cache. -/
theorem median_eval (s : DataSetWithStatistics) (hsz : s.size = s.data.length)
    (hc : s.evenCache = none ∨ s.evenCache = some (decide (s.size % 2 = 0)))
    (hne : s.data ≠ []) :
    median s = (.ok (medianFormula s.data),
      { s with evenCache := some (decide (s.size % 2 = 0)) }) := by
  have hlen : 0 < s.data.length := List.length_pos.mpr hne
  simp only [median, is_num_eval s hc, hsz]
  by_cases hpar : s.data.length % 2 = 0
  · -- even number of items
    have hb : decide (s.data.length % 2 = 0) = true := decide_eq_true hpar
    have h2 : 2 ≤ s.data.length := by omega
    have hdiv1 : 1 ≤ s.data.length / 2 := by omega
    have hidx2 : s.data.length / 2 < s.data.length := by omega
    have hidx1 : s.data.length / 2 - 1 < s.data.length := by omega
    have hcast : ((s.data.length / 2 : ℕ) : ℤ) - 1 = ((s.data.length / 2 - 1 : ℕ) : ℤ) := by
      rw [Nat.cast_sub hdiv1, Nat.cast_one]
    rw [hb, if_neg (by simp), hcast, pyGet_nat _ _ hidx1, pyGet_nat _ _ hidx2]
    simp only [medianFormula]
    rw [if_neg (by omega)]
  · -- odd number of items
    have hb : decide (s.data.length % 2 = 0) = false := decide_eq_false hpar
    have hidx : s.data.length / 2 < s.data.length := by omega
    rw [hb, if_pos rfl, pyGet_nat _ _ hidx]
    simp only [medianFormula]
    rw [if_pos (by omega)]

theorem pysorted_length (l : List ℚ) : (pysorted l).length = l.length :=
  List.length_insertionSort _ l

/-- `median` on a freshly constructed data set. -/
theorem median_mk (m : List ℚ) (hne : m ≠ []) :
    median (mkDataSet m) = (.ok (medianFormula m),
      { data := m, size := m.length, sumCache := none,
        evenCache := some (decide (m.length % 2 = 0)) }) := by
  simpa [mkDataSet] using median_eval (mkDataSet m) rfl (Or.inl rfl) hne

/-- `median` on a state whose parity cache is already filled consistently. -/
theorem median_cached (m : List ℚ) (sc : Option ℚ) (hne : m ≠ []) :
    median { data := m, size := m.length, sumCache := sc,
             evenCache := some (decide (m.length % 2 = 0)) } =
      (.ok (medianFormula m),
       { data := m, size := m.length, sumCache := sc,
         evenCache := some (decide (m.length % 2 = 0)) }) := by
  simpa using median_eval
    { data := m, size := m.length, sumCache := sc,
      evenCache := some (decide (m.length % 2 = 0)) } rfl (Or.inr rfl) hne

theorem is_num_mk (l : List ℚ) :
    is_num_of_items_even (mkDataSet l) =
      (decide (l.length % 2 = 0),
       { data := l, size := l.length, sumCache := none,
         evenCache := some (decide (l.length % 2 = 0)) }) := rfl

/-- Full evaluation of `quantiles` on a freshly constructed data set with at
least two observations: `Q1` and `Q3` are the medians of the sorted halves,
`Q2` is the positional median of the *unsorted* data, and the only state
change is the filled parity cache. -/
theorem quantiles_eval (l : List ℚ) (h2 : 2 ≤ l.length) :
    quantiles (mkDataSet l) =
      (.ok [specQ1 l, medianFormula l, specQ3 l],
       { data := l, size := l.length, sumCache := none,
         evenCache := some (decide (l.length % 2 = 0)) }) := by
  have hslen : (pysorted l).length = l.length := pysorted_length l
  have hne : l ≠ [] := by intro hcon; subst hcon; simp at h2
  have hlow_ne : (pysorted l).take (l.length / 2) ≠ [] := by
    intro hcon
    have := congrArg List.length hcon
    rw [List.length_take, hslen, List.length_nil] at this
    omega
  have hlow := median_mk ((pysorted l).take (l.length / 2)) hlow_ne
  have hq2 := median_cached l none hne
  by_cases hpar : l.length % 2 = 0
  · have hb : decide (l.length % 2 = 0) = true := decide_eq_true hpar
    have hup_ne : (pysorted l).drop (l.length / 2) ≠ [] := by
      intro hcon
      have := congrArg List.length hcon
      rw [List.length_drop, hslen, List.length_nil] at this
      omega
    have hup := median_mk ((pysorted l).drop (l.length / 2)) hup_ne
    rw [hb] at hq2
    simp only [quantiles, mkDataSet_data, mkDataSet_size, hslen, is_num_mk, hb,
      if_true, hlow, hup, hq2, specQ1, specQ3, if_pos hpar]
  · have hb : decide (l.length % 2 = 0) = false := decide_eq_false hpar
    have hup_ne : (pysorted l).drop (l.length / 2 + 1) ≠ [] := by
      intro hcon
      have := congrArg List.length hcon
      rw [List.length_drop, hslen, List.length_nil] at this
      omega
    have hup := median_mk ((pysorted l).drop (l.length / 2 + 1)) hup_ne
    rw [hb] at hq2
    simp only [quantiles, mkDataSet_data, mkDataSet_size, hslen, is_num_mk, hb,
      Bool.false_eq_true, if_false, hlow, hup, hq2, specQ1, specQ3, if_neg hpar]

/-! ### The reverse-iteration removal loop computes a filter -/

theorem removeFirst_length (l : List ℚ) (v : ℚ) (h : v ∈ l) :
    (removeFirst l v).length = l.length - 1 := by
  induction l with
  | nil => simp at h
  | cons x xs ih =>
    by_cases hx : x = v
    · simp [removeFirst, hx]
    · have hmem : v ∈ xs := by
        rcases List.mem_cons.mp h with h1 | h1
        · exact absurd h1.symm hx
        · exact h1
      have hpos : 0 < xs.length := List.length_pos.mpr (List.ne_nil_of_mem hmem)
      simp only [removeFirst, if_neg hx, List.length_cons, ih hmem]
      omega

/-- Removing an occurrence of a value the filter rejects anyway does not
change the filter result. -/
theorem removeFirst_filter (isOut : ℚ → Bool) (l : List ℚ) (v : ℚ)
    (hv : isOut v = true) :
    (removeFirst l v).filter (fun x => !isOut x) = l.filter (fun x => !isOut x) := by
  induction l with
  | nil => rfl
  | cons x xs ih =>
    by_cases hx : x = v
    · subst hx
      simp [removeFirst, List.filter_cons, hv]
    · simp only [removeFirst, if_neg hx, List.filter_cons, ih]

/-- Removing the first occurrence of the value sitting at index `i` leaves the
part of the list strictly after index `i` as the suffix from `i` onwards. -/
theorem removeFirst_drop (l : List ℚ) : ∀ (i : ℕ) (v : ℚ) (h : i < l.length),
    l.get ⟨i, h⟩ = v → (removeFirst l v).drop i = l.drop (i + 1) := by
  induction l with
  | nil => intro i v h; simp at h
  | cons x xs ih =>
    intro i v h hget
    by_cases hx : x = v
    · simp [removeFirst, hx]
    · cases i with
      | zero => exact absurd hget hx
      | succ j =>
        have h' : j < xs.length := by simpa using h
        have hget' : xs.get ⟨j, h'⟩ = v := by simpa using hget
        simpa [removeFirst, if_neg hx] using ih j v h' hget'

/-- The key loop invariant: if every element at index `i` or beyond is inside
the limits, running the reverse iterator from index `i - 1` downwards removes
exactly the out-of-limits elements, i.e. computes an order-preserving
filter. -/
theorem revIterLoop_filter (isOut : ℚ → Bool) :
    ∀ (i : ℕ) (l : List ℚ), i ≤ l.length →
      (∀ x ∈ l.drop i, isOut x = false) →
      revIterLoop isOut i l = l.filter (fun x => !isOut x) := by
  intro i
  induction i with
  | zero =>
    intro l _ hdrop
    rw [revIterLoop]
    symm
    rw [List.filter_eq_self]
    intro a ha
    simp [hdrop a ha]
  | succ i ih =>
    intro l hlen hdrop
    have hi : i < l.length := hlen
    rw [revIterLoop, dif_pos hi]
    by_cases hout : isOut (l.get ⟨i, hi⟩) = true
    · rw [if_pos hout]
      have hvmem : l.get ⟨i, hi⟩ ∈ l := List.get_mem l i hi
      have hlen' : i ≤ (removeFirst l (l.get ⟨i, hi⟩)).length := by
        rw [removeFirst_length l _ hvmem]; omega
      have hdrop' : ∀ x ∈ (removeFirst l (l.get ⟨i, hi⟩)).drop i, isOut x = false := by
        rw [removeFirst_drop l i _ hi rfl]
        intro x hx
        exact hdrop x hx
      rw [ih (removeFirst l (l.get ⟨i, hi⟩)) hlen' hdrop',
        removeFirst_filter isOut l _ hout]
    · rw [if_neg hout]
      apply ih l (le_of_lt hi)
      intro x hx
      have hsplit : l.drop i = l.get ⟨i, hi⟩ :: l.drop (i + 1) := by
        rw [List.drop_eq_getElem_cons hi, List.get_eq_getElem]
      rw [hsplit] at hx
      rcases List.mem_cons.mp hx with h1 | h1
      · subst h1
        exact Bool.not_eq_true _ |>.mp hout
      · exact hdrop x h1

theorem pyGet_first3 (a b c : ℚ) : pyGet [a, b, c] 0 = .ok a := rfl

theorem pyGet_third3 (a b c : ℚ) : pyGet [a, b, c] 2 = .ok c := rfl

/-- Pointwise identity between the loop's out-of-limits test and the
complement of the in-limits predicate. -/
theorem outlier_pred_eq (lo up x : ℚ) :
    (!(decide (x < lo) || decide (up < x))) = decide (lo ≤ x ∧ x ≤ up) := by
  rcases lt_or_le x lo with h1 | h1
  · simp [h1, not_le.mpr h1]
  · rcases lt_or_le up x with h2 | h2
    · simp [h2, not_lt.mpr h1, not_le.mpr h2]
    · simp [not_lt.mpr h1, not_lt.mpr h2, h1, h2]

/-- Full evaluation of `remove_outliers_iqr` on a fresh data set with at least
two observations: the stored list becomes the order-preserving filter keeping
exactly the values within `[Q1 - step*IQR, Q3 + step*IQR]`, while `size` and
the sum cache are untouched. -/
theorem remove_outliers_eval (l : List ℚ) (step : ℚ) (h2 : 2 ≤ l.length) :
    remove_outliers_iqr (mkDataSet l) step =
      (.ok (),
       { data := l.filter (fun x =>
           decide (specQ1 l - step * (specQ3 l - specQ1 l) ≤ x ∧
                   x ≤ specQ3 l + step * (specQ3 l - specQ1 l))),
         size := l.length, sumCache := none,
         evenCache := some (decide (l.length % 2 = 0)) }) := by
  have hloop := revIterLoop_filter
    (fun x => decide (x < specQ1 l - step * (specQ3 l - specQ1 l)) ||
              decide (specQ3 l + step * (specQ3 l - specQ1 l) < x))
    l.length l (le_refl _) (by intro x hx; simp at hx)
  simp only [remove_outliers_iqr, quantiles_eval l h2, pyGet_first3, pyGet_third3]
  rw [hloop, List.filter_congr]
  intro x _
  exact outlier_pred_eq _ _ x

/-! ### State-preservation lemmas for the caches, `size` and the data -/

theorem is_num_fields (s : DataSetWithStatistics) :
    (is_num_of_items_even s).2.data = s.data ∧
    (is_num_of_items_even s).2.size = s.size ∧
    (is_num_of_items_even s).2.sumCache = s.sumCache := by
  cases h : s.evenCache <;> simp [is_num_of_items_even, h]

theorem is_num_cached (s : DataSetWithStatistics) (b : Bool)
    (h : s.evenCache = some b) : is_num_of_items_even s = (b, s) := by
  simp [is_num_of_items_even, h]

theorem is_num_idem (s : DataSetWithStatistics) :
    is_num_of_items_even (is_num_of_items_even s).2 =
      ((is_num_of_items_even s).1, (is_num_of_items_even s).2) := by
  cases h : s.evenCache <;> simp [is_num_of_items_even, h]

/-- Every branch of `median` returns the state produced by the
`is_num_of_items_even` call. -/
theorem median_state (s : DataSetWithStatistics) :
    (median s).2 = (is_num_of_items_even s).2 := by
  rcases h : is_num_of_items_even s with ⟨even, s1⟩
  simp only [median, h]
  split
  · rfl
  · split
    · rfl
    · split <;> rfl

/-- `quantiles` either fails before touching the receiver or returns the
receiver with at most the parity cache filled. -/
theorem quantiles_state (s : DataSetWithStatistics) :
    (quantiles s).2 = s ∨ (quantiles s).2 = (is_num_of_items_even s).2 := by
  have hidem := is_num_idem s
  simp only [quantiles]
  split
  · exact Or.inl rfl
  · rcases h : is_num_of_items_even s with ⟨even, s1⟩
    have hs1 : s1 = (is_num_of_items_even s).2 := by rw [h]
    simp only [h]
    split
    · exact Or.inr rfl
    · split <;> rename_i st2 heq
      · have h1 : st2 = (is_num_of_items_even s1).2 := by
          have h2 := median_state s1
          rw [heq] at h2
          exact h2
        rw [hs1, hidem] at h1
        exact Or.inr (h1.trans hs1.symm)
      · have h1 : st2 = (is_num_of_items_even s1).2 := by
          have h2 := median_state s1
          rw [heq] at h2
          exact h2
        rw [hs1, hidem] at h1
        exact Or.inr (h1.trans hs1.symm)

/-- The removal loop changes only `data`: `size` and both caches come through
from the state left by the `quantiles` call. -/
theorem remove_outliers_state (s : DataSetWithStatistics) (step : ℚ) :
    (remove_outliers_iqr s step).2.sumCache = (quantiles s).2.sumCache ∧
    (remove_outliers_iqr s step).2.evenCache = (quantiles s).2.evenCache ∧
    (remove_outliers_iqr s step).2.size = (quantiles s).2.size := by
  rcases hq : quantiles s with ⟨r, s1⟩
  cases r with
  | error e => simp [remove_outliers_iqr, hq]
  | ok q =>
    rcases hp0 : pyGet q 0 with e | q1
    · simp [remove_outliers_iqr, hq, hp0]
    · rcases hp2 : pyGet q 2 with e | q3
      · simp [remove_outliers_iqr, hq, hp0, hp2]
      · simp [remove_outliers_iqr, hq, hp0, hp2]

theorem sum_obs_mk (l : List ℚ) :
    sum_of_observations (mkDataSet l) =
      (l.sum, { data := l, size := l.length, sumCache := some l.sum,
                evenCache := none }) := rfl

/-! ### Claims C1, C2, C3, C8 -/

/-- Claim C1, counterexample to the claim as stated: on the unsorted sample
`[3,1,2]` the returned `Q2` component is `1`, whereas the median of the
sorted sample `[1,2,3]` is `2`, so `Q2` is not the median of the sorted
sample. -/
theorem quantiles_sorted_median_cex :
    (quantiles (mkDataSet [3, 1, 2])).1 = .ok [1, 1, 3] ∧
    medianFormula (pysorted [3, 1, 2]) = 2 ∧ (1 : ℚ) ≠ 2 := by
  refine ⟨?_, ?_, by norm_num⟩
  · rw [quantiles_eval [3, 1, 2] (by norm_num)]
    norm_num [specQ1, specQ3, medianFormula, pysorted, List.insertionSort,
      List.orderedInsert]
  · norm_num [medianFormula, pysorted, List.insertionSort, List.orderedInsert]

/-- Claim C1 (amended): for every sample of size `N ≥ 2`, `quantiles()`
returns the three-element list `[Q1, Q2, Q3]` where `Q1` is the median of
`sorted[:N//2]`, `Q3` is the median of the upper half of the sorted data
starting at index `N//2` for even `N` and `N//2+1` for odd `N`, and `Q2` is
`self.median()` applied to the data in stored order (which equals the median
of the sorted sample only when the data is already sorted). -/
theorem quantiles_spec (l : List ℚ) (h : 2 ≤ l.length) :
    (quantiles (mkDataSet l)).1 = .ok [specQ1 l, medianFormula l, specQ3 l] := by
  rw [quantiles_eval l h]

/-- Witness for C1 at the spec's own example `[1,2,3,4,5,6,7]`. -/
theorem quantiles_spec_witness :
    2 ≤ ([1, 2, 3, 4, 5, 6, 7] : List ℚ).length ∧
    (quantiles (mkDataSet [1, 2, 3, 4, 5, 6, 7])).1 = .ok [2, 4, 6] := by
  refine ⟨by norm_num, ?_⟩
  rw [quantiles_spec [1, 2, 3, 4, 5, 6, 7] (by norm_num)]
  norm_num [specQ1, specQ3, medianFormula, pysorted, List.insertionSort,
    List.orderedInsert]

/-- Claim C2: after `remove_outliers_iqr` removes the outlier from
`[1,2,3,4,5,100]`, the stored `size` attribute is still `6` while the
sequence now has `5` elements — the code never updates `size` on removal,
contradicting the claimed invariant. -/
theorem size_stale_after_removal :
    ((remove_outliers_iqr (mkDataSet [1, 2, 3, 4, 5, 100]) (3 / 2)).2).size = 6 ∧
    ((remove_outliers_iqr (mkDataSet [1, 2, 3, 4, 5, 100]) (3 / 2)).2).data.length = 5 := by
  rw [remove_outliers_eval [1, 2, 3, 4, 5, 100] (3 / 2) (by norm_num)]
  refine ⟨rfl, ?_⟩
  norm_num [specQ1, specQ3, medianFormula, pysorted, List.insertionSort,
    List.orderedInsert, List.filter]

/-- Claim C3: a memoised sum (or parity) value computed before
`remove_outliers_iqr` is still returned, unchanged, by every call made after
the removal — the caches are never invalidated by the mutation. -/
theorem caches_survive_removal (s : DataSetWithStatistics) (step : ℚ) :
    (∀ v, s.sumCache = some v →
      (sum_of_observations ((remove_outliers_iqr s step).2)).1 = v) ∧
    (∀ b, s.evenCache = some b →
      (is_num_of_items_even ((remove_outliers_iqr s step).2)).1 = b) := by
  obtain ⟨hsum, heven, _⟩ := remove_outliers_state s step
  constructor
  · intro v hv
    have hcac : (remove_outliers_iqr s step).2.sumCache = some v := by
      rw [hsum]
      rcases quantiles_state s with h | h <;> rw [h]
      · exact hv
      · rw [(is_num_fields s).2.2]
        exact hv
    simp [sum_of_observations, hcac]
  · intro b hb
    have hcac : (remove_outliers_iqr s step).2.evenCache = some b := by
      rw [heven]
      rcases quantiles_state s with h | h <;> rw [h]
      · exact hb
      · rw [is_num_cached s b hb]
        exact hb
    simp [is_num_of_items_even, hcac]

/-- Witness for C3: the state of `[1,2,3,4,5,100]` after its sum `115` and
parity have been memoised; after outlier removal both calls still return the
pre-removal values. -/
theorem caches_survive_removal_witness :
    (sum_of_observations ((remove_outliers_iqr
      { data := [1, 2, 3, 4, 5, 100], size := 6, sumCache := some 115,
        evenCache := some true } (3 / 2)).2)).1 = 115 ∧
    (is_num_of_items_even ((remove_outliers_iqr
      { data := [1, 2, 3, 4, 5, 100], size := 6, sumCache := some 115,
        evenCache := some true } (3 / 2)).2)).1 = true :=
  ⟨(caches_survive_removal _ (3 / 2)).1 115 rfl,
   (caches_survive_removal _ (3 / 2)).2 true rfl⟩

/-- Claim C8: `remove_outliers_iqr(step)` computes the quartile limits once on
the pre-removal data and removes in place exactly the elements strictly below
`Q1 - step*IQR` or strictly above `Q3 + step*IQR`, keeping the survivors in
their original relative order (the result is an order-preserving filter). -/
theorem remove_outliers_iqr_spec (l : List ℚ) (step : ℚ) (h : 2 ≤ l.length) :
    (remove_outliers_iqr (mkDataSet l) step).1 = .ok () ∧
    ((remove_outliers_iqr (mkDataSet l) step).2).data =
      l.filter (fun x =>
        decide (specQ1 l - step * (specQ3 l - specQ1 l) ≤ x ∧
                x ≤ specQ3 l + step * (specQ3 l - specQ1 l))) := by
  rw [remove_outliers_eval l step h]
  exact ⟨rfl, rfl⟩

/-- Witness for C8 at the spec's example: `[1,2,3,4,5,100]` with step `1.5`
loses exactly the outlier `100`. -/
theorem remove_outliers_iqr_spec_witness :
    2 ≤ ([1, 2, 3, 4, 5, 100] : List ℚ).length ∧
    ((remove_outliers_iqr (mkDataSet [1, 2, 3, 4, 5, 100]) (3 / 2)).2).data =
      [1, 2, 3, 4, 5] := by
  refine ⟨by norm_num, ?_⟩
  rw [(remove_outliers_iqr_spec [1, 2, 3, 4, 5, 100] (3 / 2) (by norm_num)).2]
  norm_num [specQ1, specQ3, medianFormula, pysorted, List.insertionSort,
    List.orderedInsert, List.filter]

/-! ### Claim C6: the arithmetic mean -/

/-- Claim C6: `mean(false)` is `sum/N` for `N ≥ 1`; `mean(true)` is
`sum/(N-1)` for `N ≥ 2`; and for `N = 1` the Bessel-corrected mean fails
with `ZeroDivisionError`. -/
theorem arithmetic_mean_spec (l : List ℚ) :
    (1 ≤ l.length → (arithmetic_mean (mkDataSet l) false).1 =
        .ok (l.sum / l.length)) ∧
    (2 ≤ l.length → (arithmetic_mean (mkDataSet l) true).1 =
        .ok (l.sum / ((l.length : ℚ) - 1))) ∧
    (l.length = 1 → (arithmetic_mean (mkDataSet l) true).1 =
        .error "ZeroDivisionError") := by
  refine ⟨?_, ?_, ?_⟩
  · intro h1
    have hne : ((l.length : ℚ)) ≠ 0 := Nat.cast_ne_zero.mpr (by omega)
    simp only [arithmetic_mean, sum_obs_mk, Bool.false_eq_true, if_false]
    rw [pyDiv, if_neg hne]
  · intro h2
    have hne1 : (l.length : ℚ) ≠ 1 := by
      exact_mod_cast (by omega : l.length ≠ 1)
    have hne : ((l.length : ℚ) - 1) ≠ 0 := sub_ne_zero.mpr hne1
    simp only [arithmetic_mean, sum_obs_mk, if_true]
    rw [pyDiv, if_neg hne]
  · intro h1
    have hz : ((l.length : ℚ) - 1) = 0 := by rw [h1]; norm_num
    simp only [arithmetic_mean, sum_obs_mk, if_true]
    rw [pyDiv, if_pos hz]

/-- Witness for C6 on `[1,2,3]` (both mean variants) and `[5]` (the
division-by-zero case). -/
theorem arithmetic_mean_spec_witness :
    (arithmetic_mean (mkDataSet [1, 2, 3]) false).1 = .ok 2 ∧
    (arithmetic_mean (mkDataSet [1, 2, 3]) true).1 = .ok 3 ∧
    (arithmetic_mean (mkDataSet [5]) true).1 = .error "ZeroDivisionError" := by
  refine ⟨?_, ?_, (arithmetic_mean_spec [5]).2.2 rfl⟩
  · rw [(arithmetic_mean_spec [1, 2, 3]).1 (by norm_num)]
    norm_num
  · rw [(arithmetic_mean_spec [1, 2, 3]).2.1 (by norm_num)]
    norm_num

/-! ### Claim C5: covariance on samples of unequal length -/

/-- `diff_between_values_and_mean(squared=False)` on a fresh data set. -/
theorem diff_eval (l : List ℚ) (h1 : 1 ≤ l.length) :
    diff_between_values_and_mean (mkDataSet l) false =
      (.ok (mkDataSet (l.map (fun v => v - l.sum / l.length))),
       { data := l, size := l.length, sumCache := some l.sum,
         evenCache := none }) := by
  have hne : ((l.length : ℚ)) ≠ 0 := Nat.cast_ne_zero.mpr (by omega)
  have hm : arithmetic_mean (mkDataSet l) false =
      (.ok (l.sum / l.length),
       { data := l, size := l.length, sumCache := some l.sum,
         evenCache := none }) := by
    simp only [arithmetic_mean, sum_obs_mk, Bool.false_eq_true, if_false]
    rw [pyDiv, if_neg hne]
  simp only [diff_between_values_and_mean, hm, Bool.false_eq_true, if_false,
    mkDataSet_data]

/-- Claim C5, counterexample: `covariance` between the 3-element sample
`[1,2,3]` and the 2-element sample `[1,2]` does not fail — `zip` silently
truncates and the call returns the numeric value `1/2`. -/
theorem covariance_length_mismatch_cex :
    (covariance (mkDataSet [1, 2, 3]) (mkDataSet [1, 2]) true false).1 =
      .ok (1 / 2) := by
  norm_num [covariance, diff_between_values_and_mean, arithmetic_mean, mkDataSet,
    sum_of_observations, pyDiv, dsMul, dsPow]

/-- Claim C5 (amended): on samples of unequal length (with at least two
overlapping positions), `covariance` raises no length error: the element-wise
deviation product is truncated by `zip` to the shorter length and the default
Bessel-corrected mean of those products is returned. -/
theorem covariance_truncates (l1 l2 : List ℚ) (hne : l1.length ≠ l2.length)
    (hmin : 2 ≤ min l1.length l2.length) :
    (covariance (mkDataSet l1) (mkDataSet l2) true false).1 =
      .ok ((List.zipWith (fun a b => a * b)
              (l1.map (fun v => v - l1.sum / l1.length))
              (l2.map (fun v => v - l2.sum / l2.length))).sum /
           (((min l1.length l2.length : ℕ) : ℚ) - 1)) := by
  have h1 : 1 ≤ l1.length := by omega
  have h2 : 1 ≤ l2.length := by omega
  have hz : (List.zipWith (fun a b => a * b)
      (l1.map (fun v => v - l1.sum / l1.length))
      (l2.map (fun v => v - l2.sum / l2.length))).length =
      min l1.length l2.length := by
    rw [List.length_zipWith, List.length_map, List.length_map]
  have hne1 : ((min l1.length l2.length : ℕ) : ℚ) ≠ 1 := by
    exact_mod_cast (by omega : min l1.length l2.length ≠ 1)
  have hdz : ((min l1.length l2.length : ℕ) : ℚ) - 1 ≠ 0 := sub_ne_zero.mpr hne1
  simp only [covariance, diff_eval l1 h1, diff_eval l2 h2, dsMul, mkDataSet_data,
    Bool.false_eq_true, if_false, arithmetic_mean, sum_obs_mk, if_true, hz,
    pyDiv, if_neg hdz]

/-- Witness for C5's amended claim at `[1,2,3]` against `[1,2]`. -/
theorem covariance_truncates_witness :
    ([1, 2, 3] : List ℚ).length ≠ ([1, 2] : List ℚ).length ∧
    2 ≤ min ([1, 2, 3] : List ℚ).length ([1, 2] : List ℚ).length ∧
    (covariance (mkDataSet [1, 2, 3]) (mkDataSet [1, 2]) true false).1 =
      .ok (2⁻¹) := by
  refine ⟨by norm_num, by norm_num, ?_⟩
  rw [covariance_truncates [1, 2, 3] [1, 2] (by norm_num) (by norm_num)]
  norm_num

/-! ### Claim C7: the mode -/

theorem firstOccurAux_mem : ∀ (l seen : List ℚ) (w : ℚ),
    w ∈ firstOccurAux l seen ↔ w ∈ l ∧ w ∉ seen := by
  intro l
  induction l with
  | nil => intro seen w; simp [firstOccurAux]
  | cons v rest ih =>
    intro seen w
    by_cases hv : v ∈ seen
    · rw [firstOccurAux, if_pos hv, ih]
      constructor
      · rintro ⟨h1, h2⟩
        exact ⟨List.mem_cons_of_mem v h1, h2⟩
      · rintro ⟨h1, h2⟩
        rcases List.mem_cons.mp h1 with h3 | h3
        · subst h3; exact absurd hv h2
        · exact ⟨h3, h2⟩
    · rw [firstOccurAux, if_neg hv]
      constructor
      · intro h1
        rcases List.mem_cons.mp h1 with h3 | h3
        · subst h3
          exact ⟨List.mem_cons_self _ _, hv⟩
        · obtain ⟨h4, h5⟩ := (ih (v :: seen) w).mp h3
          refine ⟨List.mem_cons_of_mem v h4, fun hc => h5 (List.mem_cons_of_mem v hc)⟩
      · rintro ⟨h1, h2⟩
        rcases List.mem_cons.mp h1 with h3 | h3
        · subst h3; exact List.mem_cons_self _ _
        · by_cases hwv : w = v
          · subst hwv; exact List.mem_cons_self _ _
          · refine List.mem_cons_of_mem v ((ih (v :: seen) w).mpr ⟨h3, fun hc => ?_⟩)
            rcases List.mem_cons.mp hc with h4 | h4
            · exact hwv h4
            · exact h2 h4

theorem firstOccurAux_congr : ∀ (l s1 s2 : List ℚ),
    (∀ x, x ∈ s1 ↔ x ∈ s2) → firstOccurAux l s1 = firstOccurAux l s2 := by
  intro l
  induction l with
  | nil => intro s1 s2 _; rfl
  | cons v rest ih =>
    intro s1 s2 hiff
    by_cases hv : v ∈ s1
    · rw [firstOccurAux, if_pos hv, firstOccurAux, if_pos ((hiff v).mp hv),
        ih s1 s2 hiff]
    · have hv2 : v ∉ s2 := fun hc => hv ((hiff v).mpr hc)
      rw [firstOccurAux, if_neg hv, firstOccurAux, if_neg hv2,
        ih (v :: s1) (v :: s2) (by intro x; simp only [List.mem_cons, hiff x])]

theorem map_inc_eq_self (acc : List (ℚ × ℕ)) (v : ℚ)
    (h : ∀ e ∈ acc, e.1 ≠ v) :
    acc.map (fun e => if e.1 = v then (e.1, e.2 + 1) else e) = acc := by
  induction acc with
  | nil => rfl
  | cons x xs ih =>
    simp only [List.map_cons]
    rw [if_neg (h x (List.mem_cons_self _ _)),
      ih (fun e he => h e (List.mem_cons_of_mem x he))]

/-- The dictionary update: when the key is present (and keys are unique) bump
increments its count in place; otherwise the new key is appended with count
one. -/
theorem bump_spec (acc : List (ℚ × ℕ)) (v : ℚ)
    (hnd : (acc.map Prod.fst).Nodup) :
    bump acc v =
      if v ∈ acc.map Prod.fst then
        acc.map (fun e => if e.1 = v then (e.1, e.2 + 1) else e)
      else acc ++ [(v, 1)] := by
  induction acc with
  | nil => simp [bump]
  | cons x xs ih =>
    obtain ⟨k, f⟩ := x
    have hmap : (((k, f) :: xs).map Prod.fst) = k :: xs.map Prod.fst := rfl
    rw [hmap] at hnd
    have hk : k ∉ xs.map Prod.fst := (List.nodup_cons.mp hnd).1
    have hnd2 : (xs.map Prod.fst).Nodup := (List.nodup_cons.mp hnd).2
    by_cases hkv : k = v
    · subst hkv
      rw [bump, if_pos rfl, if_pos (by rw [hmap]; exact List.mem_cons_self _ _),
        List.map_cons, map_inc_eq_self xs k
          (fun e he hc => hk (hc ▸ List.mem_map_of_mem Prod.fst he))]
      simp
    · rw [bump, if_neg hkv, ih hnd2]
      by_cases hv : v ∈ xs.map Prod.fst
      · rw [if_pos hv, if_pos (by rw [hmap]; exact List.mem_cons_of_mem k hv)]
        simp only [List.map_cons]
        rw [if_neg hkv]
      · rw [if_neg hv, if_neg (by
          rw [hmap]
          intro hc
          rcases List.mem_cons.mp hc with h1 | h1
          · exact hkv h1.symm
          · exact hv h1)]
        rfl

/-- The frequency dictionary is exactly the list of first occurrences paired
with their total counts. -/
theorem foldl_bump_eq : ∀ (l : List ℚ) (acc : List (ℚ × ℕ)),
    (acc.map Prod.fst).Nodup →
    l.foldl bump acc =
      acc.map (fun e => (e.1, e.2 + l.count e.1)) ++
      (firstOccurAux l (acc.map Prod.fst)).map (fun v => (v, l.count v)) := by
  intro l
  induction l with
  | nil =>
    intro acc _
    simp [firstOccurAux]
  | cons v rest ih =>
    intro acc hnd
    rw [List.foldl_cons, bump_spec acc v hnd]
    by_cases hv : v ∈ acc.map Prod.fst
    · rw [if_pos hv]
      have hkeys : ((acc.map (fun e => if e.1 = v then (e.1, e.2 + 1) else e)).map
          Prod.fst) = acc.map Prod.fst := by
        rw [List.map_map]
        exact List.map_congr_left (fun e _ => by
          by_cases h : e.1 = v <;> simp [Function.comp, h])
      rw [ih _ (by rw [hkeys]; exact hnd), hkeys, List.map_map]
      rw [show firstOccurAux (v :: rest) (acc.map Prod.fst)
          = firstOccurAux rest (acc.map Prod.fst) from by
        rw [firstOccurAux, if_pos hv]]
      congr 1
      · apply List.map_congr_left
        intro e _
        by_cases h : e.1 = v
        · simp only [Function.comp_apply, if_pos h, h, List.count_cons_self, if_true]
          rw [Prod.mk.injEq]
          exact ⟨rfl, by omega⟩
        · simp only [Function.comp_apply, if_neg h,
            List.count_cons_of_ne h]
      · apply List.map_congr_left
        intro w hw
        have hwv : w ≠ v := by
          intro hc
          exact ((firstOccurAux_mem rest (acc.map Prod.fst) w).mp hw).2 (hc ▸ hv)
        rw [List.count_cons_of_ne hwv]
    · rw [if_neg hv]
      have hkeys : ((acc ++ [(v, 1)]).map Prod.fst) = acc.map Prod.fst ++ [v] := by
        simp
      have hnd2 : ((acc ++ [(v, 1)]).map Prod.fst).Nodup := by
        rw [hkeys]
        simp [List.nodup_append, hnd, hv]
      rw [ih _ hnd2, hkeys,
        firstOccurAux_congr rest (acc.map Prod.fst ++ [v]) (v :: acc.map Prod.fst)
          (by intro x; simp only [List.mem_append, List.mem_cons,
                List.mem_singleton]; tauto),
        show firstOccurAux (v :: rest) (acc.map Prod.fst)
            = v :: firstOccurAux rest (v :: acc.map Prod.fst) from by
          rw [firstOccurAux, if_neg hv],
        List.map_append, List.map_cons, List.append_assoc]
      congr 1
      · apply List.map_congr_left
        intro e he
        have hev : e.1 ≠ v := fun hc => hv (hc ▸ List.mem_map_of_mem Prod.fst he)
        rw [List.count_cons_of_ne hev]
      · simp only [List.map_cons, List.map_nil, List.singleton_append]
        congr 1
        · rw [Prod.mk.injEq]
          refine ⟨rfl, ?_⟩
          rw [List.count_cons_self]
          omega
        · apply List.map_congr_left
          intro w hw
          have hwv : w ≠ v := by
            intro hc
            exact ((firstOccurAux_mem rest (v :: acc.map Prod.fst) w).mp hw).2
              (hc ▸ List.mem_cons_self _ _)
          rw [List.count_cons_of_ne hwv]

theorem freqList_eq (l : List ℚ) :
    freqList l = (firstOccur l).map (fun v => (v, l.count v)) := by
  have h := foldl_bump_eq l [] (by simp)
  simpa [freqList, firstOccur] using h

theorem foldl_max_le_init : ∀ (es : List (ℚ × ℕ)) (a : ℕ),
    a ≤ es.foldl (fun x e => max x e.2) a := by
  intro es
  induction es with
  | nil => intro a; exact le_refl a
  | cons e es ih =>
    intro a
    exact le_trans (le_max_left a e.2) (ih (max a e.2))

theorem count_le_foldl_max (l : List ℚ) : ∀ (es : List ℚ) (a : ℕ) (v : ℚ),
    v ∈ es → l.count v ≤ es.foldl (fun x y => max x (l.count y)) a := by
  intro es
  induction es with
  | nil => intro a v hv; simp at hv
  | cons e es ih =>
    intro a v hv
    rcases List.mem_cons.mp hv with h | h
    · subst h
      calc l.count v ≤ max a (l.count v) := le_max_right _ _
        _ ≤ es.foldl (fun x y => max x (l.count y)) (max a (l.count v)) := by
            have := foldl_max_le_init (es.map (fun y => (y, l.count y))) (max a (l.count v))
            rw [List.foldl_map] at this
            exact this
    · exact ih _ v h

/-- The running-maximum loop of `mode` computes the maximum frequency and the
keys tied at it (appended in entry order, reset whenever a strictly larger
frequency appears). -/
theorem modeLoop_eq : ∀ (entries : List (ℚ × ℕ)) (modes : List ℚ) (maxf : ℕ),
    modeLoop entries modes maxf =
      ((if entries.foldl (fun a e => max a e.2) maxf = maxf then modes else []) ++
        (entries.filter (fun e =>
          decide (e.2 = entries.foldl (fun a e => max a e.2) maxf))).map Prod.fst,
       entries.foldl (fun a e => max a e.2) maxf) := by
  intro entries
  induction entries with
  | nil =>
    intro modes maxf
    simp [modeLoop]
  | cons kf rest ih =>
    obtain ⟨k, f⟩ := kf
    intro modes maxf
    have hF : ((k, f) :: rest).foldl (fun a e => max a e.2) maxf
        = rest.foldl (fun a e => max a e.2) (max maxf f) := rfl
    by_cases h1 : maxf < f
    · have hmx : max maxf f = f := max_eq_right (le_of_lt h1)
      rw [modeLoop, if_pos h1, ih [k] f, hF, hmx]
      have hfF : f ≤ rest.foldl (fun a e => max a e.2) f := foldl_max_le_init rest f
      have hFne : rest.foldl (fun a e => max a e.2) f ≠ maxf := by omega
      rw [if_neg hFne, List.filter_cons]
      by_cases h2 : f = rest.foldl (fun a e => max a e.2) f
      · rw [if_pos h2.symm,
          if_pos (decide_eq_true (h2 : ((k, f) : ℚ × ℕ).2 = _))]
        simp only [List.map_cons, List.nil_append, List.singleton_append]
      · rw [if_neg (fun hc => h2 hc.symm),
          if_neg (fun hc => h2 (of_decide_eq_true hc))]
    · by_cases h2 : f = maxf
      · have hmx : max maxf f = maxf := max_eq_left (by omega)
        rw [modeLoop, if_neg h1, if_pos h2, ih (modes ++ [k]) maxf, hF, hmx]
        by_cases h3 : rest.foldl (fun a e => max a e.2) maxf = maxf
        · rw [if_pos h3, if_pos h3, List.filter_cons,
            if_pos (decide_eq_true
              ((h2.trans h3.symm) : ((k, f) : ℚ × ℕ).2 = _))]
          simp only [List.map_cons, List.append_assoc, List.singleton_append]
        · rw [if_neg h3, if_neg h3, List.filter_cons,
            if_neg (fun hc => h3 (((of_decide_eq_true hc).symm).trans h2))]
      · have hlt : f < maxf := by omega
        have hmx : max maxf f = maxf := max_eq_left (le_of_lt hlt)
        rw [modeLoop, if_neg h1, if_neg h2, ih modes maxf, hF, hmx,
          List.filter_cons]
        have hfne : f ≠ rest.foldl (fun a e => max a e.2) maxf := by
          have := foldl_max_le_init rest maxf
          omega
        rw [if_neg (fun hc => hfne (of_decide_eq_true hc))]

/-- Full evaluation of `mode` in terms of the maximum frequency and the list
of tied values in first-encountered order. -/
theorem mode_eval (l : List ℚ) :
    mode (mkDataSet l) =
      (if 1 < specMaxFreq l ∧ 1 < (specModes l).length then
         .ok (.multiple (specModes l))
       else if 1 < specMaxFreq l ∧ (specModes l).length = 1 then
         .ok (.single ((specModes l).headD 0))
       else .error "No mode found", mkDataSet l) := by
  have hF : (freqList l).foldl (fun a e => max a e.2) 0 = specMaxFreq l := by
    rw [freqList_eq, List.foldl_map]
    rfl
  have hmodes : ((freqList l).filter (fun e =>
      decide (e.2 = specMaxFreq l))).map Prod.fst
      = specModes l := by
    rw [freqList_eq, List.filter_map, List.map_map]
    have h1 : (Prod.fst ∘ fun v => (v, l.count v)) = id := by funext v; rfl
    have h2 : ((fun e => decide (e.2 = specMaxFreq l)) ∘
        (fun v : ℚ => (v, l.count v))) =
        (fun v => decide (l.count v = specMaxFreq l)) := by funext v; rfl
    rw [h1, h2, List.map_id]
    rfl
  simp only [mode, mkDataSet_data, modeLoop_eq, ite_self, List.nil_append,
    hF, hmodes]
  split_ifs <;> rfl

/-- Claim C7: when the maximum value-frequency is at least 2, `mode` returns
the single most frequent value if it is unique and otherwise the list of all
values tied at the maximum frequency, in first-encountered order; when every
value is unique (maximum frequency at most 1) it fails with
`ValueError('No mode found')`.  The last two conjuncts pin down that
`specModes` are exactly the maximisers of the frequency. -/
theorem mode_spec (l : List ℚ) :
    (specMaxFreq l ≤ 1 → (mode (mkDataSet l)).1 = .error "No mode found") ∧
    (2 ≤ specMaxFreq l → (specModes l).length = 1 →
      (mode (mkDataSet l)).1 = .ok (.single ((specModes l).headD 0))) ∧
    (2 ≤ specMaxFreq l → 2 ≤ (specModes l).length →
      (mode (mkDataSet l)).1 = .ok (.multiple (specModes l))) ∧
    (∀ v ∈ specModes l, l.count v = specMaxFreq l) ∧
    (∀ w ∈ l, l.count w ≤ specMaxFreq l) := by
  refine ⟨?_, ?_, ?_, ?_, ?_⟩
  · intro h
    have h1 : ¬ (1 < specMaxFreq l ∧ 1 < (specModes l).length) := by omega
    have h2 : ¬ (1 < specMaxFreq l ∧ (specModes l).length = 1) := by omega
    rw [mode_eval, if_neg h1, if_neg h2]
  · intro h hlen
    have h1 : ¬ (1 < specMaxFreq l ∧ 1 < (specModes l).length) := by omega
    have h2 : 1 < specMaxFreq l ∧ (specModes l).length = 1 := by omega
    rw [mode_eval, if_neg h1, if_pos h2]
  · intro h hlen
    have h1 : 1 < specMaxFreq l ∧ 1 < (specModes l).length := by omega
    rw [mode_eval, if_pos h1]
  · intro v hv
    simp only [specModes] at hv
    exact of_decide_eq_true (List.mem_filter.mp hv).2
  · intro w hw
    have hw2 : w ∈ firstOccur l := (firstOccurAux_mem l [] w).mpr ⟨hw, by simp⟩
    exact count_le_foldl_max l (firstOccur l) 0 w hw2

/-- Witness for C7 at the spec's two examples: a two-way tie on
`[1,1,2,2,3]` and no mode on `[1,2,3]`. -/
theorem mode_spec_witness :
    (mode (mkDataSet [1, 1, 2, 2, 3])).1 = .ok (.multiple [1, 2]) ∧
    (mode (mkDataSet [1, 2, 3])).1 = .error "No mode found" := by
  constructor
  · have h := (mode_spec [1, 1, 2, 2, 3]).2.2.1
      (by norm_num [specMaxFreq, firstOccur, firstOccurAux])
      (by norm_num [specModes, specMaxFreq, firstOccur, firstOccurAux])
    rw [h]
    norm_num [specModes, specMaxFreq, firstOccur, firstOccurAux]
  · exact (mode_spec [1, 2, 3]).1
      (by norm_num [specMaxFreq, firstOccur, firstOccurAux])

/-! ### Claims C4, C9, C10: the one-sample z-test -/

theorem sum_obs_shape (s : DataSetWithStatistics) :
    (sum_of_observations s).2.data = s.data ∧
    (sum_of_observations s).2.size = s.size := by
  cases h : s.sumCache <;> simp [sum_of_observations, h]

theorem arithmetic_mean_state (s : DataSetWithStatistics) (b : Bool) :
    (arithmetic_mean s b).2 = (sum_of_observations s).2 := by
  rcases h : sum_of_observations s with ⟨v, s1⟩
  simp only [arithmetic_mean, h]
  cases b <;> rfl

theorem diff_state (s : DataSetWithStatistics) (sq : Bool) :
    (diff_between_values_and_mean s sq).2 = (arithmetic_mean s false).2 := by
  rcases h : arithmetic_mean s false with ⟨r, s1⟩
  simp only [diff_between_values_and_mean, h]
  cases r <;> rfl

theorem variance_state (s : DataSetWithStatistics) (b : Bool) :
    (variance s b).2 = (diff_between_values_and_mean s true).2 := by
  rcases h : diff_between_values_and_mean s true with ⟨r, s1⟩
  simp only [variance, h]
  cases r <;> rfl

theorem std_state (sqrtF : ℚ → ℚ) (s : DataSetWithStatistics) (b : Bool) :
    (standard_deviation sqrtF s b).2 = (variance s b).2 := by
  rcases h : variance s b with ⟨r, s1⟩
  simp only [standard_deviation, h]
  cases r <;> rfl

theorem mean_shape (s : DataSetWithStatistics) (b : Bool) :
    (arithmetic_mean s b).2.data = s.data ∧
    (arithmetic_mean s b).2.size = s.size := by
  rw [arithmetic_mean_state]
  exact sum_obs_shape s

theorem std_shape (sqrtF : ℚ → ℚ) (s : DataSetWithStatistics) (b : Bool) :
    (standard_deviation sqrtF s b).2.data = s.data ∧
    (standard_deviation sqrtF s b).2.size = s.size := by
  rw [std_state, variance_state, diff_state, arithmetic_mean_state]
  exact sum_obs_shape s

theorem sigma_shape (sqrtF : ℚ → ℚ) (s1 : DataSetWithStatistics)
    (sigma : Option ℚ) :
    ((match sigma with
      | none => standard_deviation sqrtF s1 true
      | some x => if x = 0 then standard_deviation sqrtF s1 true
                  else (.ok x, s1)) :
      Except String ℚ × DataSetWithStatistics).2.data = s1.data ∧
    ((match sigma with
      | none => standard_deviation sqrtF s1 true
      | some x => if x = 0 then standard_deviation sqrtF s1 true
                  else (.ok x, s1)) :
      Except String ℚ × DataSetWithStatistics).2.size = s1.size := by
  rcases sigma with _ | x
  · exact std_shape sqrtF s1 true
  · by_cases hx : x = 0
    · simp only [hx, if_pos rfl]
      exact std_shape sqrtF s1 true
    · simp [hx]

/-- Claim C9: `one_sample_z_test` never changes the sample's observation
sequence or its `size` attribute, for every combination of arguments and on
every path (validation failure, numeric failure or success): only the
memoisation fields can change. -/
theorem z_test_preserves_sample (sqrtF : ℚ → ℚ) (nd : NormalDist)
    (s : DataSetWithStatistics) (mu0 : ℚ) (sigma : Option ℚ) (alpha : ℚ)
    (dir : String) :
    ((one_sample_z_test sqrtF nd s mu0 sigma alpha dir).2).data = s.data ∧
    ((one_sample_z_test sqrtF nd s mu0 sigma alpha dir).2).size = s.size := by
  simp only [one_sample_z_test]
  split
  · exact ⟨rfl, rfl⟩
  · split
    next e s1 heq1 =>
      have h := mean_shape s false
      rw [heq1] at h
      exact h
    next m s1 heq1 =>
      have hs1 := mean_shape s false
      rw [heq1] at hs1
      split
      next e s2 heq2 =>
        have h := sigma_shape sqrtF s1 sigma
        rw [heq2] at h
        exact ⟨h.1.trans hs1.1, h.2.trans hs1.2⟩
      next sg s2 heq2 =>
        have h := sigma_shape sqrtF s1 sigma
        rw [heq2] at h
        have hs2 : s2.data = s.data ∧ s2.size = s.size :=
          ⟨h.1.trans hs1.1, h.2.trans hs1.2⟩
        split
        next e heq3 => exact hs2
        next denom heq3 =>
          split
          next e heq4 => exact hs2
          next z heq4 => exact hs2

/-- Claim C4: whenever `one_sample_z_test` returns normally, the returned
record is, in order, the labelled z statistic, the p-value, and the rejection
decision, and the null hypothesis is rejected exactly when `p` is strictly
below the significance level. -/
theorem z_test_decision (sqrtF : ℚ → ℚ) (nd : NormalDist)
    (s : DataSetWithStatistics) (mu0 : ℚ) (sigma : Option ℚ) (alpha : ℚ)
    (dir : String) (res : List (String × PyVal))
    (hdir : dir ∈ validDirections)
    (hres : (one_sample_z_test sqrtF nd s mu0 sigma alpha dir).1 = .ok res) :
    ∃ z p, res = [("z-value", .num z), ("p-value", .num p),
      ("null hypothesis rejected", .bool (decide (p < alpha)))] := by
  simp only [one_sample_z_test] at hres
  rw [if_neg (fun hc => hc hdir)] at hres
  rcases h1 : arithmetic_mean s false with ⟨mr, s1⟩
  simp only [h1] at hres
  cases mr with
  | error e => simp at hres
  | ok m =>
    rcases h2 : (match sigma with
      | none => standard_deviation sqrtF s1 true
      | some x => if x = 0 then standard_deviation sqrtF s1 true
                  else (.ok x, s1)) with ⟨sr, s2⟩
    simp only [h2] at hres
    cases sr with
    | error e => simp at hres
    | ok sg =>
      cases h3 : pyDiv sg (sqrtF (s2.size : ℚ)) with
      | error e => simp only [h3] at hres; simp at hres
      | ok denom =>
        simp only [h3] at hres
        cases h4 : pyDiv (m - mu0) denom with
        | error e => simp only [h4] at hres; simp at hres
        | ok z =>
          simp only [h4, Except.ok.injEq] at hres
          exact ⟨z, if dir = "two-tailed" then 2 * (1 - nd.cdf |z|)
            else if dir = "right-tailed" then 1 - nd.cdf z
            else nd.cdf z, hres.symm⟩

/-- Witness for C4 with the identity as normal provider and square root, on
the sample `[1,2,3]` with `mu0 = 0`, `sigma = 1`, `alpha = 1/2`: the record
is `[z = 6, p = -10, rejected = true]` and `rejected = decide (p < alpha)`. -/
theorem z_test_decision_witness :
    ("two-tailed" ∈ validDirections) ∧
    ∃ z p, [("z-value", PyVal.num 6), ("p-value", PyVal.num (-10)),
            ("null hypothesis rejected", PyVal.bool true)] =
      [("z-value", PyVal.num z), ("p-value", PyVal.num p),
       ("null hypothesis rejected", PyVal.bool (decide (p < 1 / 2)))] := by
  constructor
  · simp [validDirections]
  · exact z_test_decision (fun q => q) ⟨fun q => q, fun q => q⟩
      (mkDataSet [1, 2, 3]) 0 (some 1) (1 / 2) "two-tailed"
      [("z-value", PyVal.num 6), ("p-value", PyVal.num (-10)),
       ("null hypothesis rejected", PyVal.bool true)]
      (by simp [validDirections])
      (by norm_num [one_sample_z_test, arithmetic_mean, mkDataSet,
        sum_of_observations, pyDiv, validDirections, abs])

/-- Claim C10: supplying `population_standard_deviation = 0` is
indistinguishable from omitting the argument: the falsy check replaces the
zero by the sample's own Bessel-corrected standard deviation. -/
theorem z_test_zero_sigma_fallback (sqrtF : ℚ → ℚ) (nd : NormalDist)
    (s : DataSetWithStatistics) (mu0 : ℚ) (alpha : ℚ) (dir : String)
    (hN : 2 ≤ s.size) (hdir : dir ∈ validDirections) :
    one_sample_z_test sqrtF nd s mu0 (some 0) alpha dir =
    one_sample_z_test sqrtF nd s mu0 none alpha dir := by
  simp [one_sample_z_test]

/-- Witness for C10 on the sample `[1,2,3]`. -/
theorem z_test_zero_sigma_fallback_witness :
    2 ≤ (mkDataSet [1, 2, 3]).size ∧
    one_sample_z_test (fun q => q) ⟨fun q => q, fun q => q⟩
      (mkDataSet [1, 2, 3]) 0 (some 0) (1 / 2) "two-tailed" =
    one_sample_z_test (fun q => q) ⟨fun q => q, fun q => q⟩
      (mkDataSet [1, 2, 3]) 0 none (1 / 2) "two-tailed" :=
  ⟨by norm_num [mkDataSet],
   z_test_zero_sigma_fallback (fun q => q) ⟨fun q => q, fun q => q⟩
     (mkDataSet [1, 2, 3]) 0 (1 / 2) "two-tailed"
     (by norm_num [mkDataSet]) (by simp [validDirections])⟩

end PyStat
